import Mathlib

/-!
Verification of the service-worker caching logic of the pwa-getstarted
repository, shallowly embedded in Lean.

The hand-written worker `src/sw.js` is embedded faithfully:

* `CACHE_NAME`, `CACHE_URLS` are the constants of `sw.js`.
* A single named cache (the browser `Cache` object) is an association list
  of URL/response pairs; the browser `CacheStorage` is an association list
  of name/cache pairs.  `putEntry` is `cache.put`, `lookupEntry` is a
  lookup by URL in one cache, `matchIn`/`cachesMatch` is `caches.match`
  (first cache, in order, holding the URL wins), `openCache` is
  `caches.open` (get-or-create), `cachesDelete` is `caches.delete`,
  `cachesKeys` is `caches.keys`.
* `cacheAddAll` is `cache.addAll`: it rejects unless every listed URL
  fetches to a response with an ok (2xx) status, and stores every fetched
  response otherwise.
* `installHandler` is the `install` event listener of `sw.js` (lines
  26-43), including the trailing `.catch` that converts a rejection of the
  `addAll` chain into a resolution of the promise handed to
  `event.waitUntil`.
* `activateHandler` is the `activate` event listener (lines 48-68): delete
  every cache whose name differs from `CACHE_NAME`, then claim clients.
  Besides the new storage state it returns the ordered list of actions it
  performed.
* `fetchHandler` is the `fetch` event listener (lines 73-122).  The
  network is a function from URL to `NetResult` (a rejection carrying an
  error value, or a resolution carrying an optional response).  The
  outcome records what was passed to `event.respondWith` (`none` when the
  handler returned early, passing the request through), the storage state
  afterwards, and how many network fetches the handler issued.
-/

namespace PWA

/-- An HTTP response: status code and body bytes. -/
structure Response where
  status : Nat
  body : List Nat
deriving DecidableEq, Repr

abbrev Url := String

/-- One named browser cache: an association list keyed by request URL. -/
abbrev Cache := List (Url × Response)

/-- The browser CacheStorage: named caches, in creation order. -/
structure CacheStorage where
  caches : List (String × Cache)
deriving DecidableEq, Repr

/-- `const CACHE_NAME = 'pwa-getstarted-v1'` (sw.js line 6). -/
def CACHE_NAME : String := "pwa-getstarted-v1"

/-- `const CACHE_URLS = [...]` (sw.js lines 7-21): the asset manifest. -/
def CACHE_URLS : List Url :=
  ["./", "./index.html", "./styles.css", "./app.js", "./manifest.json",
   "./icons/icon-72.png", "./icons/icon-96.png", "./icons/icon-128.png",
   "./icons/icon-144.png", "./icons/icon-152.png", "./icons/icon-192.png",
   "./icons/icon-384.png", "./icons/icon-512.png"]

/-- `cache.put(request, response)`: overwrite the entry for the URL in
place, or append it. -/
def putEntry (k : Url) (v : Response) : Cache → Cache
  | [] => [(k, v)]
  | (k', v') :: rest =>
    if k' = k then (k, v) :: rest else (k', v') :: putEntry k v rest

/-- Look a URL up in one cache (`cache.match`). -/
def lookupEntry (k : Url) : Cache → Option Response
  | [] => none
  | (k', v') :: rest => if k' = k then some v' else lookupEntry k rest

/-- `caches.match(request)` over a list of named caches: the first cache
holding the URL answers. -/
def matchIn (u : Url) : List (String × Cache) → Option Response
  | [] => none
  | (_, c) :: rest =>
    match lookupEntry u c with
    | some r => some r
    | none => matchIn u rest

/-- `caches.match(request)` on the whole storage. -/
def cachesMatch (u : Url) (s : CacheStorage) : Option Response :=
  matchIn u s.caches

/-- `caches.open(name)`: return the named cache, creating it empty at the
end of the storage when absent. -/
def openCache (name : String) : List (String × Cache) → Cache × List (String × Cache)
  | [] => ([], [(name, [])])
  | (n, c) :: rest =>
    if n = name then (c, (n, c) :: rest)
    else
      let p := openCache name rest
      (p.1, (n, c) :: p.2)

/-- Replace the contents of the named cache (create it at the end when
absent). -/
def setCache (name : String) (c : Cache) : List (String × Cache) → List (String × Cache)
  | [] => [(name, c)]
  | (n, c') :: rest =>
    if n = name then (n, c) :: rest else (n, c') :: setCache name c rest

/-- Find a named cache in the storage list. -/
def findCache (name : String) : List (String × Cache) → Option Cache
  | [] => none
  | (n, c) :: rest => if n = name then some c else findCache name rest

/-- `caches.delete(name)`. -/
def cachesDelete (name : String) (l : List (String × Cache)) : List (String × Cache) :=
  l.filter (fun p => p.1 ≠ name)

/-- `caches.keys()`. -/
def cachesKeys (l : List (String × Cache)) : List String :=
  l.map Prod.fst

/-- What one call to `fetch(url)` does: reject with an error value, or
resolve with a response (`resolved none` models a handler seeing an
undefined response object, which sw.js line 96 guards against). -/
inductive NetResult where
  | rejected (e : Nat)
  | resolved (r : Option Response)
deriving DecidableEq, Repr

/-- A network environment: what fetching each URL yields. -/
abbrev Network := Url → NetResult

/-- `cache.addAll` accepts a fetched result only when it is a response
with an ok (2xx) status. -/
def netOk : NetResult → Bool
  | .resolved (some r) => decide (200 ≤ r.status) && decide (r.status < 300)
  | _ => false

/-- Store the fetched response of every URL in the list, in order. -/
def addEntries (net : Network) : List Url → Cache → Cache
  | [], c => c
  | u :: rest, c =>
    match net u with
    | .resolved (some r) => addEntries net rest (putEntry u r c)
    | _ => addEntries net rest c

/-- `cache.addAll(urls)`: rejects (`none`) unless every URL fetches to an
ok response; otherwise stores every fetched response. -/
def cacheAddAll (net : Network) (urls : List Url) (c : Cache) : Option Cache :=
  if urls.all (fun u => netOk (net u)) then some (addEntries net urls c) else none

/-- Outcome of the install event listener. `waitUntilResolved` records
whether the promise handed to `event.waitUntil` fulfilled (install
reported successful to the runtime). -/
structure InstallOutcome where
  storage : CacheStorage
  skipWaitingCalled : Bool
  errorLogged : Bool
  waitUntilResolved : Bool
deriving DecidableEq, Repr

/-- The `install` event listener of sw.js (lines 26-43):
`caches.open(CACHE_NAME).then(cache => cache.addAll(CACHE_URLS))
 .then(() => self.skipWaiting()).catch(error => console.error(...))`.
The trailing `.catch` only logs, so the promise handed to
`event.waitUntil` resolves on either path. -/
def installHandler (net : Network) (s : CacheStorage) : InstallOutcome :=
  let p := openCache CACHE_NAME s.caches
  match cacheAddAll net CACHE_URLS p.1 with
  | some c' =>
    { storage := ⟨setCache CACHE_NAME c' p.2⟩
      skipWaitingCalled := true
      errorLogged := false
      waitUntilResolved := true }
  | none =>
    { storage := ⟨p.2⟩
      skipWaitingCalled := false
      errorLogged := true
      waitUntilResolved := true }

/-- The observable actions the activate listener performs, in order. -/
inductive ActivateAction where
  | deleteCache (name : String)
  | claimClients
deriving DecidableEq, Repr

/-- The `activate` event listener of sw.js (lines 48-68): list all cache
names, delete every one differing from `CACHE_NAME`, then claim the open
clients.  Returns the storage afterwards and the ordered action trace. -/
def activateHandler (s : CacheStorage) : CacheStorage × List ActivateAction :=
  let stale := (cachesKeys s.caches).filter (fun n => n ≠ CACHE_NAME)
  (⟨stale.foldl (fun acc n => cachesDelete n acc) s.caches⟩,
   stale.map ActivateAction.deleteCache ++ [ActivateAction.claimClients])

/-- `url.startsWith(origin)` (sw.js line 80). -/
def urlStartsWith (url origin : String) : Bool :=
  origin.data.isPrefixOf url.data

/-- An intercepted request: method, absolute URL, and mode
(`"navigate"` for page navigations). -/
structure Request where
  method : String
  url : Url
  mode : String
deriving DecidableEq, Repr

deriving instance DecidableEq for Except

/-- Outcome of the fetch event listener.  `respondedWith = none` means the
listener returned early without calling `event.respondWith` (the request
passes through to default network handling); `some (.error e)` means the
promise passed to `respondWith` rejected with the network error `e`;
`some (.ok r)` means it fulfilled with `r` (`r = none` is fulfilment with
an undefined value, not a response).  `networkCalls` counts the `fetch`
calls the listener itself issued. -/
structure FetchOutcome where
  respondedWith : Option (Except Nat (Option Response))
  storage : CacheStorage
  networkCalls : Nat
deriving DecidableEq, Repr

/-- `caches.open(CACHE_NAME).then(cache => cache.put(request, copy))`
(sw.js lines 103-106). -/
def storagePutList (name : String) (u : Url) (r : Response)
    (l : List (String × Cache)) : List (String × Cache) :=
  let p := openCache name l
  setCache name (putEntry u r p.1) p.2

/-- Storage-level wrapper of `storagePutList`. -/
def storagePut (name : String) (u : Url) (r : Response) (s : CacheStorage) :
    CacheStorage :=
  ⟨storagePutList name u r s.caches⟩

/-- The `fetch` event listener of sw.js (lines 73-122): skip non-GET and
cross-origin requests; otherwise answer from any cache, else fetch from
the network, storing a copy only for status-200 responses; on a network
rejection fall back to `caches.match('./index.html')` for navigations and
re-raise the error otherwise. -/
def fetchHandler (origin : String) (net : Network) (req : Request)
    (s : CacheStorage) : FetchOutcome :=
  if req.method ≠ "GET" then ⟨none, s, 0⟩
  else if urlStartsWith req.url origin = false then ⟨none, s, 0⟩
  else
    match cachesMatch req.url s with
    | some cachedResponse => ⟨some (.ok (some cachedResponse)), s, 0⟩
    | none =>
      match net req.url with
      | .resolved networkResponse =>
        match networkResponse with
        | none => ⟨some (.ok none), s, 1⟩
        | some nr =>
          if nr.status ≠ 200 then ⟨some (.ok (some nr)), s, 1⟩
          else ⟨some (.ok (some nr)), storagePut CACHE_NAME req.url nr s, 1⟩
      | .rejected e =>
        if req.mode = "navigate" then
          ⟨some (.ok (cachesMatch "./index.html" s)), s, 1⟩
        else ⟨some (.error e), s, 1⟩

/-- Modelled from the spec: the third-party workbox `NetworkFirst`
strategy that `src/app.js` (lines 392-403) registers for navigation
requests with `networkTimeoutSeconds: 3`; the library implementation is
not part of this repository.  Spec: "Attempt network fetch with a bounded
wait (e.g., 3 seconds); if it succeeds, store and return it; if it fails
or times out, fall back to the cached copy."  The network either delivers
a response after a number of seconds or fails outright. -/
inductive NetworkArrival where
  | arrives (afterSeconds : Nat) (r : Response)
  | failed
deriving DecidableEq, Repr

/-- Modelled from the spec: one `NetworkFirst` request for `url` against a
single runtime cache `c`.  A network response within `timeoutSeconds` is
returned, and stored only when its status is cacheable: the route in
`src/app.js` attaches `CacheableResponsePlugin({statuses: [0, 200]})`, and
the spec demands that "a network response object that is undefined or has
a non-200 status must never be stored, but is still returned to the
caller as-is".  On timeout or failure the cached copy is returned and the
cache is untouched. -/
def networkFirst (timeoutSeconds : Nat) (arrival : NetworkArrival) (url : Url)
    (c : Cache) : Option Response × Cache :=
  match arrival with
  | .arrives t r =>
    if t ≤ timeoutSeconds then
      if r.status = 0 ∨ r.status = 200 then (some r, putEntry url r c)
      else (some r, c)
    else (lookupEntry url c, c)
  | .failed => (lookupEntry url c, c)

/-- Every response stored anywhere in the storage has an ok (2xx) status. -/
def allSuccessful (s : CacheStorage) : Prop :=
  ∀ p ∈ s.caches, ∀ q ∈ p.2, 200 ≤ q.2.status ∧ q.2.status < 300

/-- A network where fetching `./styles.css` rejects and every other URL
yields an ok response: a manifest with exactly one unfetchable entry. -/
def netBad : Network := fun u =>
  if u = "./styles.css" then .rejected 7 else .resolved (some ⟨200, []⟩)

/-- A network where every URL yields status 200 with an empty body. -/
def netAllOk : Network := fun _ => .resolved (some ⟨200, []⟩)

/-- A network answering every URL with a fresh page whose body differs
from the cached copy in `sNav`. -/
def netFresh : Network := fun _ => .resolved (some ⟨200, [2]⟩)

/-- A network where every fetch rejects. -/
def netDown : Network := fun _ => .rejected 3

/-- A network answering every URL with a 404 response. -/
def net404 : Network := fun _ => .resolved (some ⟨404, []⟩)

/-- A navigation request to the app root. -/
def reqNav : Request := ⟨"GET", "https://app.example/", "navigate"⟩

/-- A storage whose current cache already holds the app root page. -/
def sNav : CacheStorage :=
  ⟨[("pwa-getstarted-v1", [("https://app.example/", ⟨200, [1]⟩)])]⟩

/-- A storage holding one stale cache besides the current one. -/
def sOld : CacheStorage :=
  ⟨[("pwa-old", [("x", ⟨200, []⟩)]), ("pwa-getstarted-v1", [])]⟩

/-- A storage holding the precached fallback document under its manifest
key, and nothing else. -/
def sFallback : CacheStorage :=
  ⟨[("pwa-getstarted-v1", [("./index.html", ⟨200, [9]⟩)])]⟩

/-!  Lemmas about single caches. -/

theorem lookupEntry_putEntry_self (k : Url) (v : Response) (c : Cache) :
    lookupEntry k (putEntry k v c) = some v := by
  induction c with
  | nil => simp [putEntry, lookupEntry]
  | cons p rest ih =>
    obtain ⟨a, b⟩ := p
    by_cases h : a = k
    · simp [putEntry, lookupEntry, h]
    · simp [putEntry, lookupEntry, h, ih]

theorem lookupEntry_putEntry_of_ne (k k' : Url) (v : Response) (c : Cache)
    (h : k ≠ k') : lookupEntry k (putEntry k' v c) = lookupEntry k c := by
  have h' : ¬(k' = k) := fun hh => h hh.symm
  induction c with
  | nil => simp [putEntry, lookupEntry, h']
  | cons p rest ih =>
    obtain ⟨a, b⟩ := p
    by_cases h1 : a = k'
    · simp [putEntry, lookupEntry, h1, h']
    · simp [putEntry, lookupEntry, h1, ih]

theorem putEntry_eq_self (k : Url) (v : Response) (c : Cache)
    (h : lookupEntry k c = some v) : putEntry k v c = c := by
  induction c with
  | nil => simp [lookupEntry] at h
  | cons p rest ih =>
    obtain ⟨a, b⟩ := p
    by_cases h1 : a = k
    · simp [lookupEntry, h1] at h
      simp [putEntry, h1, h]
    · simp [lookupEntry, h1] at h
      simp [putEntry, h1, ih h]

theorem mem_putEntry {q : Url × Response} {k : Url} {v : Response} {c : Cache}
    (h : q ∈ putEntry k v c) : q = (k, v) ∨ q ∈ c := by
  induction c with
  | nil =>
    simp [putEntry] at h
    exact Or.inl h
  | cons p rest ih =>
    obtain ⟨a, b⟩ := p
    by_cases h1 : a = k
    · simp only [putEntry, h1, if_pos rfl] at h
      rcases List.mem_cons.mp h with h2 | h2
      · exact Or.inl h2
      · exact Or.inr (List.mem_cons_of_mem _ h2)
    · simp only [putEntry, h1, if_neg h1] at h
      rcases List.mem_cons.mp h with h2 | h2
      · exact Or.inr (by simp [h2])
      · rcases ih h2 with h3 | h3
        · exact Or.inl h3
        · exact Or.inr (List.mem_cons_of_mem _ h3)

/-!  Lemmas about `netOk` and `addEntries`. -/

theorem netOk_resolved {nr : NetResult} (h : netOk nr = true) :
    ∃ r, nr = NetResult.resolved (some r) ∧ 200 ≤ r.status ∧ r.status < 300 := by
  cases nr with
  | rejected e => simp [netOk] at h
  | resolved r =>
    cases r with
    | none => simp [netOk] at h
    | some r => exact ⟨r, rfl, by simpa [netOk] using h⟩

theorem lookupEntry_addEntries_of_not_mem (net : Network) (u : Url)
    (urls : List Url) (c : Cache) :
    u ∉ urls → lookupEntry u (addEntries net urls c) = lookupEntry u c := by
  induction urls generalizing c with
  | nil => intro _; rfl
  | cons u0 rest ih =>
    intro h
    have hne : u ≠ u0 := fun hh => h (by simp [hh])
    have hrest : u ∉ rest := fun hh => h (List.mem_cons_of_mem _ hh)
    cases hnet : net u0 with
    | resolved r =>
      cases r with
      | some r0 =>
        simp [addEntries, hnet, ih _ hrest,
          lookupEntry_putEntry_of_ne u u0 r0 c hne]
      | none => simp [addEntries, hnet, ih _ hrest]
    | rejected e => simp [addEntries, hnet, ih _ hrest]

theorem lookupEntry_addEntries_mem (net : Network) (urls : List Url) (c : Cache) :
    (∀ u' ∈ urls, netOk (net u') = true) → ∀ u ∈ urls,
      ∃ r, net u = NetResult.resolved (some r) ∧
        lookupEntry u (addEntries net urls c) = some r := by
  induction urls generalizing c with
  | nil => intro _ u hu; simp at hu
  | cons u0 rest ih =>
    intro hall u hu
    obtain ⟨r0, hr0, _, _⟩ := netOk_resolved (hall u0 (by simp))
    by_cases hmem : u ∈ rest
    · have h2 := ih (putEntry u0 r0 c)
        (fun u' hu' => hall u' (List.mem_cons_of_mem _ hu')) u hmem
      simpa [addEntries, hr0] using h2
    · have hu0 : u = u0 := by
        rcases List.mem_cons.mp hu with h2 | h2
        · exact h2
        · exact absurd h2 hmem
      subst hu0
      refine ⟨r0, hr0, ?_⟩
      simp [addEntries, hr0,
        lookupEntry_addEntries_of_not_mem net u rest _ hmem,
        lookupEntry_putEntry_self]

theorem addEntries_eq_self (net : Network) (urls : List Url) (c : Cache) :
    (∀ u ∈ urls, ∃ r, net u = NetResult.resolved (some r) ∧
      lookupEntry u c = some r) → addEntries net urls c = c := by
  induction urls with
  | nil => intro _; rfl
  | cons u0 rest ih =>
    intro h
    obtain ⟨r0, hr0, hl⟩ := h u0 (by simp)
    have hput : putEntry u0 r0 c = c := putEntry_eq_self _ _ _ hl
    simp [addEntries, hr0, hput,
      ih (fun u hu => h u (List.mem_cons_of_mem _ hu))]

/-!  Lemmas about the storage: `findCache`, `setCache`, `openCache`. -/

theorem findCache_setCache_self (n : String) (c : Cache)
    (l : List (String × Cache)) : findCache n (setCache n c l) = some c := by
  induction l with
  | nil => simp [setCache, findCache]
  | cons p rest ih =>
    obtain ⟨a, b⟩ := p
    by_cases h : a = n
    · simp [setCache, findCache, h]
    · simp [setCache, findCache, h, ih]

theorem setCache_eq_self (n : String) (c : Cache) (l : List (String × Cache))
    (h : findCache n l = some c) : setCache n c l = l := by
  induction l with
  | nil => simp [findCache] at h
  | cons p rest ih =>
    obtain ⟨a, b⟩ := p
    by_cases h1 : a = n
    · simp [findCache, h1] at h
      simp [setCache, h1, h]
    · simp [findCache, h1] at h
      simp [setCache, h1, ih h]

theorem openCache_of_findCache (n : String) (c : Cache)
    (l : List (String × Cache)) (h : findCache n l = some c) :
    openCache n l = (c, l) := by
  induction l with
  | nil => simp [findCache] at h
  | cons p rest ih =>
    obtain ⟨a, b⟩ := p
    by_cases h1 : a = n
    · simp [findCache, h1] at h
      simp [openCache, h1, h]
    · simp [findCache, h1] at h
      simp [openCache, h1, ih h]

theorem findCache_openCache (n : String) (l : List (String × Cache)) :
    findCache n (openCache n l).2 = some (openCache n l).1 := by
  induction l with
  | nil => simp [openCache, findCache]
  | cons p rest ih =>
    obtain ⟨a, b⟩ := p
    by_cases h : a = n
    · simp [openCache, findCache, h]
    · simp [openCache, findCache, h, ih]

theorem matchIn_storagePutList (n : String) (u : Url) (r : Response)
    (l : List (String × Cache)) (h : matchIn u l = none) :
    matchIn u (storagePutList n u r l) = some r := by
  induction l with
  | nil => simp [storagePutList, openCache, setCache, matchIn,
      lookupEntry_putEntry_self]
  | cons p rest ih =>
    obtain ⟨a, b⟩ := p
    have hb : lookupEntry u b = none := by
      cases hub : lookupEntry u b with
      | none => rfl
      | some rb => simp [matchIn, hub] at h
    have hrest : matchIn u rest = none := by
      simpa [matchIn, hb] using h
    by_cases h1 : a = n
    · simp [storagePutList, openCache, setCache, matchIn, h1,
        lookupEntry_putEntry_self]
    · simpa [storagePutList, openCache, setCache, matchIn, h1, hb]
        using ih hrest

/-!  Membership lemmas used for the stored-status invariant. -/

theorem openCache_cons_self (n : String) (b : Cache)
    (rest : List (String × Cache)) :
    openCache n ((n, b) :: rest) = (b, (n, b) :: rest) := by
  simp [openCache]

theorem openCache_cons_ne (n a : String) (b : Cache)
    (rest : List (String × Cache)) (h : ¬(a = n)) :
    openCache n ((a, b) :: rest)
      = ((openCache n rest).1, (a, b) :: (openCache n rest).2) := by
  simp [openCache, h]

theorem mem_setCache {q : String × Cache} {n : String} {c : Cache}
    {l : List (String × Cache)} (h : q ∈ setCache n c l) :
    q = (n, c) ∨ q ∈ l := by
  induction l with
  | nil =>
    simp [setCache] at h
    exact Or.inl h
  | cons p0 rest ih =>
    obtain ⟨a, b⟩ := p0
    by_cases h1 : a = n
    · simp only [setCache, h1, if_pos rfl] at h
      rcases List.mem_cons.mp h with h2 | h2
      · exact Or.inl (by simp [h2])
      · exact Or.inr (List.mem_cons_of_mem _ h2)
    · simp only [setCache, if_neg h1] at h
      rcases List.mem_cons.mp h with h2 | h2
      · exact Or.inr (by simp [h2])
      · rcases ih h2 with h3 | h3
        · exact Or.inl h3
        · exact Or.inr (List.mem_cons_of_mem _ h3)

theorem mem_openCache_snd {q : String × Cache} {n : String}
    {l : List (String × Cache)} (h : q ∈ (openCache n l).2) :
    q ∈ l ∨ q = (n, ([] : Cache)) := by
  induction l with
  | nil =>
    simp [openCache] at h
    exact Or.inr (by simp [h])
  | cons p0 rest ih =>
    obtain ⟨a, b⟩ := p0
    by_cases h1 : a = n
    · subst h1
      rw [openCache_cons_self] at h
      exact Or.inl h
    · rw [openCache_cons_ne n a b rest h1] at h
      rcases List.mem_cons.mp h with h2 | h2
      · exact Or.inl (by simp [h2])
      · rcases ih h2 with h3 | h3
        · exact Or.inl (List.mem_cons_of_mem _ h3)
        · exact Or.inr h3

theorem mem_openCache_fst {q : Url × Response} {n : String}
    {l : List (String × Cache)} (h : q ∈ (openCache n l).1) :
    ∃ c, (n, c) ∈ l ∧ q ∈ c := by
  induction l with
  | nil => simp [openCache] at h
  | cons p0 rest ih =>
    obtain ⟨a, b⟩ := p0
    by_cases h1 : a = n
    · subst h1
      rw [openCache_cons_self] at h
      exact ⟨b, by simp, h⟩
    · rw [openCache_cons_ne n a b rest h1] at h
      obtain ⟨c, hc, hq⟩ := ih h
      exact ⟨c, List.mem_cons_of_mem _ hc, hq⟩

theorem allSuccessful_storagePut (n : String) (u : Url) (r : Response)
    (s : CacheStorage) (h200 : 200 ≤ r.status) (h300 : r.status < 300)
    (h : allSuccessful s) : allSuccessful (storagePut n u r s) := by
  intro p hp q hq
  rcases mem_setCache hp with hset | hopen
  · subst hset
    rcases mem_putEntry hq with hqr | hqc
    · subst hqr
      exact ⟨h200, h300⟩
    · obtain ⟨c, hc, hqc'⟩ := mem_openCache_fst hqc
      exact h (n, c) hc q hqc'
  · rcases mem_openCache_snd hopen with hmem | hnew
    · exact h p hmem q hq
    · subst hnew
      simp at hq

/-!  Lemmas about the activate handler. -/

theorem foldl_cachesDelete_eq_filter (names : List String)
    (l : List (String × Cache)) :
    names.foldl (fun acc n => cachesDelete n acc) l
      = l.filter (fun p => decide (p.1 ∉ names)) := by
  induction names generalizing l with
  | nil => simp
  | cons n ns ih =>
    rw [List.foldl_cons, ih (cachesDelete n l)]
    unfold cachesDelete
    rw [List.filter_filter]
    apply List.filter_congr
    intro p _
    by_cases h1 : p.1 = n <;> by_cases h2 : p.1 ∈ ns <;> simp [h1, h2]

theorem findCache_eq_none_of (name : String) (l : List (String × Cache))
    (h : ∀ p ∈ l, ¬(p.1 = name)) : findCache name l = none := by
  induction l with
  | nil => rfl
  | cons p0 rest ih =>
    obtain ⟨a, b⟩ := p0
    have ha : ¬(a = name) := h (a, b) (by simp)
    simp [findCache, ha, ih (fun p hp => h p (List.mem_cons_of_mem _ hp))]

/-!  A branch characterization of the fetch handler: the storage is left
untouched except when a status-200 network response is stored. -/

theorem fetchHandler_storage_cases (origin : String) (net : Network)
    (req : Request) (s : CacheStorage) :
    (fetchHandler origin net req s).storage = s ∨
    ∃ nr, nr.status = 200 ∧
      (fetchHandler origin net req s).storage = storagePut CACHE_NAME req.url nr s := by
  by_cases h1 : req.method ≠ "GET"
  · simp [fetchHandler, h1]
  have h1' : req.method = "GET" := not_not.mp h1
  by_cases h2 : urlStartsWith req.url origin = false
  · simp [fetchHandler, h1', h2]
  have h2' : urlStartsWith req.url origin = true := by
    revert h2; cases urlStartsWith req.url origin <;> simp
  cases hc : cachesMatch req.url s with
  | some r => simp [fetchHandler, h1', h2', hc]
  | none =>
    cases hn : net req.url with
    | rejected e =>
      by_cases hm : req.mode = "navigate" <;>
        simp [fetchHandler, h1', h2', hc, hn, hm]
    | resolved r =>
      cases r with
      | none => simp [fetchHandler, h1', h2', hc, hn]
      | some nr =>
        by_cases hs : nr.status ≠ 200
        · simp [fetchHandler, h1', h2', hc, hn, hs]
        · refine Or.inr ⟨nr, not_not.mp hs, ?_⟩
          simp [fetchHandler, h1', h2', hc, hn, hs]

/-!  Claim theorems. -/

/-- Claim C1 (code bug): with the network `netBad`, whose fetch of the
manifest entry `./styles.css` rejects, the install listener of sw.js still
resolves the promise handed to `event.waitUntil` — its trailing `.catch`
only logs — so the install is reported successful to the runtime and the
worker can go on to activate even though the current cache stayed empty;
the failure is logged and `skipWaiting` is skipped, but nothing marks the
install as failed. -/
theorem install_failure_reported_success :
    (installHandler netBad ⟨[]⟩).waitUntilResolved = true ∧
    (installHandler netBad ⟨[]⟩).errorLogged = true ∧
    (installHandler netBad ⟨[]⟩).skipWaitingCalled = false ∧
    findCache CACHE_NAME (installHandler netBad ⟨[]⟩).storage.caches
      = some [] := by
  decide

/-- Claim C2, counterexample: in the hand-written worker, a navigation
request whose URL is already cached is answered from the cache with zero
network fetches, although the network (`netFresh`) would deliver a
different, fresher page: no network fetch is attempted first, and the
returned response is the cached one, not the network one. -/
theorem navigation_cache_hit_counterexample :
    fetchHandler "https://app.example" netFresh reqNav sNav
      = ⟨some (.ok (some ⟨200, [1]⟩)), sNav, 0⟩ ∧
    netFresh reqNav.url = NetResult.resolved (some ⟨200, [2]⟩) ∧
    (⟨200, [1]⟩ : Response) ≠ ⟨200, [2]⟩ := by
  decide

/-- Claim C2 (amended): the network-first-with-3-second-timeout behavior
for navigations belongs to the workbox worker's registered route (modelled
by `networkFirst`): a network response arriving within the timeout is
returned in preference to the cached copy, and is stored only when its
status is cacheable per the attached `CacheableResponsePlugin` (0 or 200)
— a non-cacheable in-timeout response is returned without touching the
cache; the cached copy is used only on failure or timeout.  The
hand-written worker instead serves any cached URL — navigations included
— straight from the cache with no network fetch. -/
theorem navigation_strategy_amended :
    (∀ (t : Nat) (r : Response) (url : Url) (c : Cache), t ≤ 3 →
      (networkFirst 3 (.arrives t r) url c).1 = some r ∧
      (r.status = 0 ∨ r.status = 200 →
        lookupEntry url (networkFirst 3 (.arrives t r) url c).2 = some r) ∧
      (¬(r.status = 0 ∨ r.status = 200) →
        (networkFirst 3 (.arrives t r) url c).2 = c)) ∧
    (∀ (t : Nat) (r : Response) (url : Url) (c : Cache), ¬(t ≤ 3) →
      networkFirst 3 (.arrives t r) url c = (lookupEntry url c, c)) ∧
    (∀ (url : Url) (c : Cache),
      networkFirst 3 NetworkArrival.failed url c = (lookupEntry url c, c)) ∧
    (∀ (origin : String) (net : Network) (req : Request) (s : CacheStorage)
      (r0 : Response), req.method = "GET" →
      urlStartsWith req.url origin = true → cachesMatch req.url s = some r0 →
      fetchHandler origin net req s = ⟨some (.ok (some r0)), s, 0⟩) := by
  refine ⟨?_, ?_, ?_, ?_⟩
  · intro t r url c ht
    refine ⟨?_, ?_, ?_⟩
    · simp only [networkFirst, if_pos ht]
      split <;> rfl
    · intro hs
      simp [networkFirst, ht, hs, lookupEntry_putEntry_self]
    · intro hs
      simp [networkFirst, ht, hs]
  · intro t r url c ht
    simp [networkFirst, ht]
  · intro url c
    rfl
  · intro origin net req s r0 hm ho hc
    simp [fetchHandler, hm, ho, hc]

/-- Claim C2, witness for the amended statement. -/
theorem navigation_strategy_amended_witness :
    (networkFirst 3 (.arrives 1 ⟨200, [5]⟩) "https://app.example/" []).1
      = some ⟨200, [5]⟩ ∧
    lookupEntry "https://app.example/"
      (networkFirst 3 (.arrives 1 ⟨200, [5]⟩) "https://app.example/" []).2
      = some ⟨200, [5]⟩ ∧
    fetchHandler "https://app.example" netFresh reqNav sNav
      = ⟨some (.ok (some ⟨200, [1]⟩)), sNav, 0⟩ :=
  ⟨(navigation_strategy_amended.1 1 ⟨200, [5]⟩ "https://app.example/" []
      (by decide)).1,
   (navigation_strategy_amended.1 1 ⟨200, [5]⟩ "https://app.example/" []
      (by decide)).2.1 (Or.inr rfl),
   navigation_strategy_amended.2.2.2 "https://app.example" netFresh reqNav
      sNav ⟨200, [1]⟩ rfl (by decide) (by decide)⟩

/-- Claim C3: after the activate listener runs, no cache named differently
from `CACHE_NAME` exists any longer, and claiming the open clients is the
last action of the activation trace: every stale-cache deletion precedes
it, and the worker only begins intercepting requests afterwards. -/
theorem activate_removes_stale_caches (s : CacheStorage) :
    (∀ name, name ≠ CACHE_NAME →
      findCache name (activateHandler s).1.caches = none) ∧
    (activateHandler s).2.getLast? = some ActivateAction.claimClients ∧
    (∀ a ∈ (activateHandler s).2.dropLast,
      a ≠ ActivateAction.claimClients) := by
  refine ⟨?_, ?_, ?_⟩
  · intro name hname
    show findCache name
      (((cachesKeys s.caches).filter (fun n => n ≠ CACHE_NAME)).foldl
        (fun acc n => cachesDelete n acc) s.caches) = none
    rw [foldl_cachesDelete_eq_filter]
    apply findCache_eq_none_of
    intro p hp hpname
    rw [List.mem_filter] at hp
    obtain ⟨hpl, hdec⟩ := hp
    simp at hdec
    rcases hdec with hdec | hdec
    · exact hdec (List.mem_map_of_mem _ hpl)
    · exact hname (by rw [← hpname]; exact hdec)
  · show (_ ++ [ActivateAction.claimClients]).getLast? = _
    rw [List.getLast?_concat]
  · show ∀ a ∈ (_ ++ [ActivateAction.claimClients]).dropLast, _
    rw [List.dropLast_concat]
    intro a ha
    obtain ⟨n, _, hn⟩ := List.mem_map.mp ha
    rw [← hn]
    simp

/-- Claim C3, witness. -/
theorem activate_removes_stale_caches_witness :
    findCache "pwa-old" (activateHandler sOld).1.caches = none :=
  (activate_removes_stale_caches sOld).1 "pwa-old" (by decide)

/-- Claim C4: a request that is not a GET, or whose URL does not start
with the worker's origin, is passed through untouched: the listener does
not call `respondWith`, the storage is unchanged, and no network fetch is
issued by the handler. -/
theorem non_get_or_cross_origin_passthrough (origin : String)
    (net : Network) (req : Request) (s : CacheStorage)
    (h : req.method ≠ "GET" ∨ urlStartsWith req.url origin = false) :
    fetchHandler origin net req s = ⟨none, s, 0⟩ := by
  rcases h with h | h
  · simp [fetchHandler, h]
  · by_cases h1 : req.method ≠ "GET"
    · simp [fetchHandler, h1]
    · simp [fetchHandler, not_not.mp h1, h]

/-- Claim C4, witness. -/
theorem non_get_or_cross_origin_passthrough_witness :
    fetchHandler "https://app.example" netFresh
      ⟨"POST", "https://app.example/api", "cors"⟩ sNav = ⟨none, sNav, 0⟩ :=
  non_get_or_cross_origin_passthrough "https://app.example" netFresh
    ⟨"POST", "https://app.example/api", "cors"⟩ sNav (Or.inl (by decide))

/-- Claim C5: a network response that is undefined or whose status is not
200 is returned to the caller exactly as received with nothing stored
(the storage is unchanged); and the fetch handler preserves the invariant
that every stored response has a successful (2xx) status. -/
theorem non_ok_response_never_stored :
    (∀ (origin : String) (net : Network) (req : Request) (s : CacheStorage)
      (nro : Option Response), req.method = "GET" →
      urlStartsWith req.url origin = true → cachesMatch req.url s = none →
      net req.url = NetResult.resolved nro →
      (∀ nr, nro = some nr → nr.status ≠ 200) →
      fetchHandler origin net req s = ⟨some (.ok nro), s, 1⟩) ∧
    (∀ (origin : String) (net : Network) (req : Request) (s : CacheStorage),
      allSuccessful s → allSuccessful (fetchHandler origin net req s).storage) := by
  constructor
  · intro origin net req s nro hm ho hc hn hstatus
    cases nro with
    | none => simp [fetchHandler, hm, ho, hc, hn]
    | some nr =>
      have hs := hstatus nr rfl
      simp [fetchHandler, hm, ho, hc, hn, hs]
  · intro origin net req s h
    rcases fetchHandler_storage_cases origin net req s with hcase | ⟨nr, h200, hcase⟩
    · rw [hcase]
      exact h
    · rw [hcase]
      exact allSuccessful_storagePut _ _ _ _ (by omega) (by omega) h

/-- Claim C5, witness. -/
theorem non_ok_response_never_stored_witness :
    fetchHandler "https://app.example" net404
      ⟨"GET", "https://app.example/missing", "cors"⟩ ⟨[]⟩
      = ⟨some (.ok (some ⟨404, []⟩)), ⟨[]⟩, 1⟩ :=
  non_ok_response_never_stored.1 "https://app.example" net404
    ⟨"GET", "https://app.example/missing", "cors"⟩ ⟨[]⟩ (some ⟨404, []⟩) rfl
    (by decide) rfl rfl (fun nr h => by cases h; decide)

/-- Claim C6: when the network fetch rejects, a navigation request is
answered with the precached fallback document whenever one is cached (the
caller never sees the raw error), while a non-navigation request has the
original error re-raised unchanged. -/
theorem offline_fallback_on_failure (origin : String) (net : Network)
    (req : Request) (s : CacheStorage) (e : Nat)
    (hm : req.method = "GET") (ho : urlStartsWith req.url origin = true)
    (hc : cachesMatch req.url s = none)
    (hn : net req.url = NetResult.rejected e) :
    (∀ fb, req.mode = "navigate" → cachesMatch "./index.html" s = some fb →
      fetchHandler origin net req s = ⟨some (.ok (some fb)), s, 1⟩) ∧
    (req.mode ≠ "navigate" →
      fetchHandler origin net req s = ⟨some (.error e), s, 1⟩) := by
  constructor
  · intro fb hmode hfb
    simp [fetchHandler, hm, ho, hc, hn, hmode, hfb]
  · intro hmode
    simp [fetchHandler, hm, ho, hc, hn, hmode]

/-- Claim C6, witness. -/
theorem offline_fallback_on_failure_witness :
    fetchHandler "https://app.example" netDown
      ⟨"GET", "https://app.example/deep/page", "navigate"⟩ sFallback
      = ⟨some (.ok (some ⟨200, [9]⟩)), sFallback, 1⟩ :=
  (offline_fallback_on_failure "https://app.example" netDown
    ⟨"GET", "https://app.example/deep/page", "navigate"⟩ sFallback 3 rfl
    (by decide) (by decide) rfl).1 ⟨200, [9]⟩ rfl (by decide)

/-- Claim C7: under a network that fetches every manifest entry with an ok
status, the install succeeds (skipWaiting is reached) and afterwards every
entry of `CACHE_URLS` is retrievable from the current cache. -/
theorem install_precaches_manifest (net : Network) (s : CacheStorage)
    (h : ∀ u ∈ CACHE_URLS, netOk (net u) = true) :
    (installHandler net s).skipWaitingCalled = true ∧
    ∀ u ∈ CACHE_URLS, ∃ c r,
      findCache CACHE_NAME (installHandler net s).storage.caches = some c ∧
      lookupEntry u c = some r := by
  have hall : CACHE_URLS.all (fun u => netOk (net u)) = true :=
    List.all_eq_true.mpr (fun u hu => h u hu)
  have hinstall : installHandler net s =
      ⟨⟨setCache CACHE_NAME
          (addEntries net CACHE_URLS (openCache CACHE_NAME s.caches).1)
          (openCache CACHE_NAME s.caches).2⟩, true, false, true⟩ := by
    simp [installHandler, cacheAddAll, hall]
  rw [hinstall]
  refine ⟨rfl, ?_⟩
  intro u hu
  obtain ⟨r, _, hl⟩ := lookupEntry_addEntries_mem net CACHE_URLS
    (openCache CACHE_NAME s.caches).1 h u hu
  exact ⟨_, r, findCache_setCache_self _ _ _, hl⟩

/-- Claim C7, witness. -/
theorem install_precaches_manifest_witness :
    ∃ c r,
      findCache CACHE_NAME (installHandler netAllOk ⟨[]⟩).storage.caches
        = some c ∧
      lookupEntry "./index.html" c = some r :=
  (install_precaches_manifest netAllOk ⟨[]⟩ (by decide)).2 "./index.html"
    (by decide)

/-- Claim C8: once a cache-first asset URL has been primed by a first
fetch (cache miss, network delivers a status-200 response, a copy is
stored), a second fetch of the same URL within the worker lifetime is
answered from the cache with zero network fetches. -/
theorem primed_cache_hit_no_network (origin : String) (net : Network)
    (req : Request) (s : CacheStorage) (r : Response)
    (hm : req.method = "GET") (ho : urlStartsWith req.url origin = true)
    (hc : cachesMatch req.url s = none)
    (hn : net req.url = NetResult.resolved (some r)) (hs : r.status = 200) :
    fetchHandler origin net req (fetchHandler origin net req s).storage
      = ⟨some (.ok (some r)), (fetchHandler origin net req s).storage, 0⟩ := by
  have h1 : fetchHandler origin net req s
      = ⟨some (.ok (some r)), storagePut CACHE_NAME req.url r s, 1⟩ := by
    simp [fetchHandler, hm, ho, hc, hn, hs]
  have h2 : cachesMatch req.url (storagePut CACHE_NAME req.url r s) = some r :=
    matchIn_storagePutList CACHE_NAME req.url r s.caches hc
  rw [h1]
  simp [fetchHandler, hm, ho, h2]

/-- Claim C8, witness. -/
theorem primed_cache_hit_no_network_witness :
    fetchHandler "https://app.example" netFresh
      ⟨"GET", "https://app.example/icons/icon-72.png", "no-cors"⟩
      (fetchHandler "https://app.example" netFresh
        ⟨"GET", "https://app.example/icons/icon-72.png", "no-cors"⟩
        ⟨[]⟩).storage
      = ⟨some (.ok (some ⟨200, [2]⟩)),
         (fetchHandler "https://app.example" netFresh
           ⟨"GET", "https://app.example/icons/icon-72.png", "no-cors"⟩
           ⟨[]⟩).storage, 0⟩ :=
  primed_cache_hit_no_network "https://app.example" netFresh
    ⟨"GET", "https://app.example/icons/icon-72.png", "no-cors"⟩ ⟨[]⟩
    ⟨200, [2]⟩ rfl (by decide) rfl rfl rfl

/-- Claim C9: running the install listener twice against the same network
and the same `CACHE_NAME` leaves the cache storage in exactly the state a
single run produces — on the success path because re-adding the same
manifest responses overwrites them with themselves, and on the failure
path because neither run changes the (already opened) cache. -/
theorem install_idempotent (net : Network) (s : CacheStorage) :
    (installHandler net (installHandler net s).storage).storage
      = (installHandler net s).storage := by
  cases hall : CACHE_URLS.all (fun u => netOk (net u)) with
  | false =>
    have h1 : installHandler net s
        = ⟨⟨(openCache CACHE_NAME s.caches).2⟩, false, true, true⟩ := by
      simp [installHandler, cacheAddAll, hall]
    have hopen := openCache_of_findCache CACHE_NAME _ _
      (findCache_openCache CACHE_NAME s.caches)
    rw [h1]
    simp [installHandler, cacheAddAll, hall, hopen]
  | true =>
    have h1 : installHandler net s
        = ⟨⟨setCache CACHE_NAME
            (addEntries net CACHE_URLS (openCache CACHE_NAME s.caches).1)
            (openCache CACHE_NAME s.caches).2⟩, true, false, true⟩ := by
      simp [installHandler, cacheAddAll, hall]
    have hfind := findCache_setCache_self CACHE_NAME
      (addEntries net CACHE_URLS (openCache CACHE_NAME s.caches).1)
      (openCache CACHE_NAME s.caches).2
    have hopen := openCache_of_findCache CACHE_NAME _ _ hfind
    have hsat := lookupEntry_addEntries_mem net CACHE_URLS
      (openCache CACHE_NAME s.caches).1 (List.all_eq_true.mp hall)
    have hadd : addEntries net CACHE_URLS
        (addEntries net CACHE_URLS (openCache CACHE_NAME s.caches).1)
        = addEntries net CACHE_URLS (openCache CACHE_NAME s.caches).1 :=
      addEntries_eq_self _ _ _ (fun u hu => hsat u hu)
    have hset := setCache_eq_self CACHE_NAME
      (addEntries net CACHE_URLS (openCache CACHE_NAME s.caches).1)
      (setCache CACHE_NAME
        (addEntries net CACHE_URLS (openCache CACHE_NAME s.caches).1)
        (openCache CACHE_NAME s.caches).2) hfind
    rw [h1]
    simp [installHandler, cacheAddAll, hall, hopen, hadd, hset]

/-- Claim C10: in the hand-written worker, when a navigation request's
network fetch rejects and `./index.html` is absent from every cache, the
promise given to `respondWith` fulfils with an undefined value (`none`) —
neither a `Response` nor a re-raised error — because the result of the
fallback `caches.match` is returned without being checked. -/
theorem missing_fallback_yields_undefined (origin : String) (net : Network)
    (req : Request) (s : CacheStorage) (e : Nat)
    (hm : req.method = "GET") (ho : urlStartsWith req.url origin = true)
    (hmode : req.mode = "navigate") (hc : cachesMatch req.url s = none)
    (hn : net req.url = NetResult.rejected e)
    (hf : cachesMatch "./index.html" s = none) :
    fetchHandler origin net req s = ⟨some (.ok none), s, 1⟩ := by
  simp [fetchHandler, hm, ho, hc, hn, hmode, hf]

/-- Claim C10, witness. -/
theorem missing_fallback_yields_undefined_witness :
    fetchHandler "https://app.example" netDown reqNav ⟨[]⟩
      = ⟨some (.ok none), ⟨[]⟩, 1⟩ :=
  missing_fallback_yields_undefined "https://app.example" netDown reqNav
    ⟨[]⟩ 3 rfl (by decide) rfl rfl rfl rfl

end PWA
